import Mathlib

/-!
Verification of the core of `log-it-yeet-it` (src/app.js): the entry store,
the create/update/delete lifecycle, the JSON import/export serializer and
the search filter.  The IndexedDB-backed store is embedded as a list of
records keyed by `id`; `nowISO()` and `uuid()` are embedded as explicitly
supplied string parameters, so every operation is a pure function.
-/

deriving instance DecidableEq for Except

namespace LogItYeetIt

mutual
/-- JSON values as produced by `JSON.parse`: the dynamic payloads that
`importJSON` consumes.  Numbers are embedded as integers (no behaviour in
scope depends on fractional values); `undefined` never occurs in parsed
JSON, so absence of an object key is represented by a failing lookup. -/
inductive JSValue where
  | null : JSValue
  | bool : Bool → JSValue
  | num : Int → JSValue
  | str : String → JSValue
  | arr : JSList → JSValue
  | obj : JSObj → JSValue
deriving DecidableEq

/-- A JSON array's elements. -/
inductive JSList where
  | nil : JSList
  | cons : JSValue → JSList → JSList
deriving DecidableEq

/-- A JSON object's key/value fields, in insertion order (JSON objects
parsed by `JSON.parse` have distinct keys). -/
inductive JSObj where
  | nil : JSObj
  | cons : String → JSValue → JSObj → JSObj
deriving DecidableEq
end

/-- JavaScript truthiness of a value, as used by `if (!e.id)` etc. in
`importJSON` (app.js lines 134-135). -/
def truthy : JSValue → Bool
  | .null => false
  | .bool b => b
  | .num n => n != 0
  | .str s => s != ""
  | .arr _ => true
  | .obj _ => true

/-- Key lookup in a JSON object (first occurrence; parsed objects have
distinct keys). -/
def objLookup : JSObj → String → Option JSValue
  | .nil, _ => none
  | .cons k v t, key => if k == key then some v else objLookup t key

/-- Property access `v[k]` on a parsed JSON value: `none` plays the role of
`undefined` (absent key, or access on a non-object).  String-keyed access
on an array is `undefined` for every schema key used by app.js, and the
`"updated_at" in e` test of line 136 is exactly `fieldGet e "updated_at"
≠ none`. -/
def fieldGet (v : JSValue) (k : String) : Option JSValue :=
  match v with
  | .obj kvs => objLookup kvs k
  | _ => none

/-- The `!e || typeof e !== "object"` skip test of app.js line 133, negated:
`null` and primitives are skipped; objects and arrays pass (in JavaScript
`typeof` of an array is `"object"`). -/
def isRecord : JSValue → Bool
  | .obj _ => true
  | .arr _ => true
  | _ => false

mutual
/-- JavaScript `String(v)` conversion as used in `importJSON`
(app.js lines 137-141): `String(3) = "3"`, booleans print as words, arrays
join their element strings with commas (a `null` element contributing the
empty string) and plain objects print as `[object Object]`. -/
def jsToString : JSValue → String
  | .null => "null"
  | .bool true => "true"
  | .bool false => "false"
  | .num n => toString n
  | .str s => s
  | .arr xs => String.intercalate "," (arrParts xs)
  | .obj _ => "[object Object]"

/-- Element strings of `Array.prototype.toString`: `null` elements become
empty strings, others convert recursively. -/
def arrParts : JSList → List String
  | .nil => []
  | .cons .null xs => "" :: arrParts xs
  | .cons x xs => jsToString x :: arrParts xs
end

/-- Whitespace as removed by `String.prototype.trim()` (app.js trims all
form fields and the search query); the ASCII whitespace characters cover
every behaviour in scope. -/
def jsWhitespace (c : Char) : Bool := c.isWhitespace

/-- `trim()` on the underlying character list. -/
def trimChars (l : List Char) : List Char :=
  ((l.dropWhile jsWhitespace).reverse.dropWhile jsWhitespace).reverse

/-- JavaScript `s.trim()`. -/
def jsTrim (s : String) : String := ⟨trimChars s.data⟩

/-- JavaScript `s.toLowerCase()` (ASCII case folding suffices for the
behaviour in scope). -/
def jsToLower (s : String) : String := ⟨s.data.map Char.toLower⟩

/-- Boolean prefix test on character lists. -/
def isPrefixB : List Char → List Char → Bool
  | [], _ => true
  | _ :: _, [] => false
  | a :: as, b :: bs => a == b && isPrefixB as bs

/-- Boolean infix test on character lists; `hasInfixB hay needle` scans for
`needle` at every suffix of `hay`. -/
def hasInfixB (hay needle : List Char) : Bool :=
  if isPrefixB needle hay then true
  else
    match hay with
    | [] => false
    | _ :: t => hasInfixB t needle

/-- JavaScript `hay.includes(needle)` (app.js line 326). -/
def strIncludes (hay needle : String) : Bool := hasInfixB hay.data needle.data

/-- Lexicographic (code-point) order on character lists: the order
`localeCompare` computes on the ISO-8601 timestamp strings in scope. -/
def lexLe : List Char → List Char → Bool
  | [], _ => true
  | _ :: _, [] => false
  | a :: as, b :: bs =>
      if a < b then true else if a = b then lexLe as bs else false

/-- String comparison `a.localeCompare(b) <= 0` for the strings in scope. -/
def strLe (a b : String) : Bool := lexLe a.data b.data

/-- A stored entry, with the schema fields of app.js.  Records created by
the log form carry string `id`/`created_at` and a null-or-string
`updated_at`, but `importJSON` keeps any truthy `id`/`created_at` and any
present `updated_at` unchanged, so those three fields are embedded as
dynamic values; the five text fields are always strings after
normalization (lines 137-141). -/
structure Entry where
  id : JSValue
  created_at : JSValue
  updated_at : JSValue
  item : String
  location : String
  inventory : String
  date : String
  notes : String
deriving DecidableEq

/-- The IndexedDB object store of entries, keyed by `id`.  Key equality is
structural (the keys in scope are strings). -/
abbrev Store := List Entry

/-- `store.get(id)` (app.js lines 92-101): the record with the given key,
or null when absent. -/
def getEntry (st : Store) (k : JSValue) : Option Entry :=
  st.find? (fun x => x.id == k)

/-- `store.delete(id)` (app.js lines 88-90): removes the record at the key;
deleting an absent key is not an error. -/
def deleteEntry (st : Store) (k : JSValue) : Store :=
  st.filter (fun x => !(x.id == k))

/-- `store.put(entry)` (app.js lines 84-86): insert-or-replace at
`entry.id`. -/
def putEntry (st : Store) (e : Entry) : Store :=
  if st.any (fun x => x.id == e.id) then
    st.map (fun x => if x.id == e.id then e else x)
  else st ++ [e]

/-- `store.add(entry)` (app.js lines 80-82): insert, failing on a key that
already exists (IndexedDB ConstraintError, surfaced as a rejected
transaction). -/
def addEntry (st : Store) (e : Entry) : Option Store :=
  if st.any (fun x => x.id == e.id) then none else some (st ++ [e])

/-- The five text fields read from the log/edit form. -/
structure FormFields where
  item : String
  location : String
  inventory : String
  date : String
  notes : String
deriving DecidableEq

/-- Failure modes of the submit handler of the log form. -/
inductive CreateErr where
  | validation : CreateErr
  | storage : CreateErr
deriving DecidableEq

/-- The submit handler of `wireLogForm` (app.js lines 190-226): trim the
five fields, reject an empty trimmed `item` before touching storage,
otherwise build the entry with a fresh id, `created_at := now`,
`updated_at := null` and call `addEntry`. -/
def createEntry (freshId now : String) (f : FormFields) (st : Store) :
    Except CreateErr Store :=
  let item := jsTrim f.item
  if item = "" then .error .validation
  else
    match addEntry st
        { id := .str freshId, created_at := .str now, updated_at := .null,
          item := item, location := jsTrim f.location,
          inventory := jsTrim f.inventory, date := jsTrim f.date,
          notes := jsTrim f.notes } with
    | none => .error .storage
    | some st' => .ok st'

/-- Failure modes of `saveEdit`. -/
inductive EditErr where
  | itemRequired : EditErr
  | notFound : EditErr
deriving DecidableEq

/-- `saveEdit` (app.js lines 404-442): reject an empty trimmed `item`,
load the existing record by id (the hidden form field holds the id as
text), spread it and overwrite the five trimmed text fields and
`updated_at := now`, leaving `id` and `created_at` as they were, then
`putEntry`. -/
def saveEdit (now : String) (id : String) (f : FormFields) (st : Store) :
    Except EditErr Store :=
  let item := jsTrim f.item
  if item = "" then .error .itemRequired
  else
    match getEntry st (.str id) with
    | none => .error .notFound
    | some existing =>
        .ok (putEntry st
          { existing with
            item := item, location := jsTrim f.location,
            inventory := jsTrim f.inventory, date := jsTrim f.date,
            notes := jsTrim f.notes, updated_at := .str now })

/-- The search haystack of `matchesQuery` (app.js line 325): the template
string joins `item`, `location` and `notes` with single spaces (the
`|| ""` fallbacks are the identity on the string-typed fields). -/
def hayOf (e : Entry) : String :=
  e.item ++ " " ++ e.location ++ " " ++ e.notes

/-- `matchesQuery` (app.js lines 323-327): an empty query matches
everything, otherwise the lowercased haystack must contain the query. -/
def matchesQuery (e : Entry) (q : String) : Bool :=
  if q = "" then true
  else strIncludes (jsToLower (hayOf e)) q

/-- The filter step of `renderSearch` (app.js lines 344-346): the raw input
is trimmed and lowercased, then each entry is kept iff `matchesQuery`. -/
def searchFilter (es : List Entry) (rawQ : String) : List Entry :=
  es.filter (fun e => matchesQuery e (jsToLower (jsTrim rawQ)))

/-- The sort key of `(x.created_at || "")` (app.js line 117): a falsy
`created_at` compares as the empty string; `localeCompare` on the
ISO-8601 timestamp strings in scope agrees with code-point string order. -/
def sortKey (e : Entry) : String :=
  if truthy e.created_at then jsToString e.created_at else ""

/-- The comparator of `exportJSON` (line 117): entry `a` may precede entry
`b` exactly when the comparator is nonpositive at `(a, b)`, i.e. when `b`'s
key is at most `a`'s (descending `created_at`). -/
def createdDesc (a b : Entry) : Prop := strLe (sortKey b) (sortKey a) = true

instance : DecidableRel createdDesc := fun a b =>
  inferInstanceAs (Decidable (strLe (sortKey b) (sortKey a) = true))

/-- The `entries.sort(...)` call of `exportJSON` (app.js line 117): a
stable sort by descending `created_at` (JavaScript `Array.prototype.sort`
is stable; any stable sort computes the same list, here insertion sort). -/
def exportList (st : Store) : List Entry :=
  List.insertionSort createdDesc st

/-- The JSON object an entry serializes to (`JSON.stringify` in
`exportJSON`, app.js line 118): the schema fields in construction order.
Parsing the serialized text back yields exactly this value. -/
def entryToJS (e : Entry) : JSValue :=
  .obj (.cons "id" e.id (.cons "created_at" e.created_at
    (.cons "updated_at" e.updated_at (.cons "item" (.str e.item)
      (.cons "location" (.str e.location)
        (.cons "inventory" (.str e.inventory)
          (.cons "date" (.str e.date)
            (.cons "notes" (.str e.notes) .nil))))))))

/-- A Lean list of values as a JSON array. -/
def toJSList : List JSValue → JSList
  | [] => .nil
  | v :: vs => .cons v (toJSList vs)

/-- `exportJSON` (app.js lines 114-119) as the parsed form of the produced
text: `{ exported_at: now, entries: [...] }` with the entries sorted
newest-first.  `JSON.stringify` followed by `JSON.parse` is the identity
on these values, so the serialized text is represented by its parse. -/
def exportPayload (now : String) (st : Store) : JSValue :=
  .obj (.cons "exported_at" (.str now)
    (.cons "entries" (.arr (toJSList ((exportList st).map entryToJS))) .nil))

/-- The text-field coercion of app.js lines 137-141:
`if (typeof e.f !== "string") e.f = String(e.f ?? "")` — an absent or null
field becomes the empty string, a string is kept, anything else goes
through JavaScript string conversion. -/
def coerceText : Option JSValue → String
  | none => ""
  | some .null => ""
  | some (.str s) => s
  | some v => jsToString v

/-- The per-element normalization of `importJSON` (app.js lines 133-143):
non-records are rejected (`none`); otherwise a falsy `id` is replaced by
the fresh id, a falsy `created_at` by the current time, an absent
`updated_at` by null, and the five text fields are coerced to strings.
The source mutates the parsed element in place and stores it, extra
payload keys and all; the embedding keeps the schema fields, which are the
only ones any behaviour in scope reads. -/
def normalizeRecord (freshId now : String) (v : JSValue) : Option Entry :=
  if isRecord v then
    some
      { id :=
          match fieldGet v "id" with
          | some x => if truthy x then x else .str freshId
          | none => .str freshId,
        created_at :=
          match fieldGet v "created_at" with
          | some x => if truthy x then x else .str now
          | none => .str now,
        updated_at :=
          match fieldGet v "updated_at" with
          | some x => x
          | none => .null,
        item := coerceText (fieldGet v "item"),
        location := coerceText (fieldGet v "location"),
        inventory := coerceText (fieldGet v "inventory"),
        date := coerceText (fieldGet v "date"),
        notes := coerceText (fieldGet v "notes") }
  else none

/-- The entries of the loop of `importJSON` (app.js lines 132-144): skip
non-records, normalize and upsert the rest.  `uuid()` is embedded as a
supply of fresh strings indexed by the element's position. -/
def importLoop (fresh : Nat → String) (now : String) :
    Nat → JSList → Store → Store
  | _, .nil, st => st
  | k, .cons v vs, st =>
      match normalizeRecord (fresh k) now v with
      | none => importLoop fresh now (k + 1) vs st
      | some e => importLoop fresh now (k + 1) vs (putEntry st e)

/-- `Array.isArray(parsed?.entries) ? parsed.entries : null` (app.js
line 128). -/
def entriesOf (payload : JSValue) : Option JSList :=
  match fieldGet payload "entries" with
  | some (.arr xs) => some xs
  | _ => none

/-- The number of elements of a parsed JSON array (`entries.length`). -/
def jsListLength : JSList → Nat
  | .nil => 0
  | .cons _ vs => jsListLength vs + 1

/-- How many elements of a parsed JSON array pass the record check of
app.js line 133 (the elements actually normalized and stored). -/
def recordCount : JSList → Nat
  | .nil => 0
  | .cons v vs => (if isRecord v then 1 else 0) + recordCount vs

/-- The import failure of app.js line 129 (`ParseError` happens before the
payload value exists and is outside this embedding). -/
inductive ImportErr where
  | missingEntries : ImportErr
deriving DecidableEq

/-- `importJSON` (app.js lines 121-146) from the parsed payload on: reject
a payload without an `entries` array, process each element, and return
`entries.length`. -/
def importFromValue (fresh : Nat → String) (now : String) (payload : JSValue)
    (st : Store) : Except ImportErr (Store × Nat) :=
  match entriesOf payload with
  | none => .error .missingEntries
  | some es => .ok (importLoop fresh now 0 es st, jsListLength es)

/-- A sample entry as the log form would create it: item `Drill`, location
`Garage`, the optional fields unset (empty text per the data model). -/
def sampleDrill : Entry :=
  { id := .str "a", created_at := .str "2024-01-01T10:00:00.000Z",
    updated_at := .null, item := "Drill", location := "Garage",
    inventory := "", date := "", notes := "" }

/-- A sample entry whose only field containing `3` is `inventory`. -/
def sampleSaw : Entry :=
  { id := .str "b", created_at := .str "2024-02-01T10:00:00.000Z",
    updated_at := .null, item := "Saw", location := "Shed",
    inventory := "3", date := "", notes := "" }

/-- A third sample entry, newest of the three. -/
def sampleHammer : Entry :=
  { id := .str "c", created_at := .str "2024-03-01T10:00:00.000Z",
    updated_at := .null, item := "Hammer", location := "", inventory := "",
    date := "", notes := "needs battery" }

theorem lexLe_refl : ∀ l : List Char, lexLe l l = true := by
  intro l
  induction l with
  | nil => rfl
  | cons a as ih => simp [lexLe, ih]

theorem lexLe_total : ∀ a b : List Char, lexLe a b = true ∨ lexLe b a = true := by
  intro a
  induction a with
  | nil => intro b; left; rfl
  | cons x xs ih =>
    intro b
    cases b with
    | nil => right; rfl
    | cons y ys =>
      rcases lt_trichotomy x y with h | h | h
      · left; simp [lexLe, h]
      · subst h
        rcases ih ys with h2 | h2
        · left; simp [lexLe, h2]
        · right; simp [lexLe, h2]
      · right; simp [lexLe, h]

theorem lexLe_trans : ∀ a b c : List Char,
    lexLe a b = true → lexLe b c = true → lexLe a c = true := by
  intro a
  induction a with
  | nil => intro b c _ _; rfl
  | cons x xs ih =>
    intro b c hab hbc
    cases b with
    | nil => simp [lexLe] at hab
    | cons y ys =>
      cases c with
      | nil => simp [lexLe] at hbc
      | cons z zs =>
        simp only [lexLe] at hab hbc ⊢
        by_cases hxy : x < y
        · by_cases hyz : y < z
          · simp [lt_trans hxy hyz]
          · simp only [hyz, if_false] at hbc
            by_cases hyz2 : y = z
            · subst hyz2; simp [hxy]
            · simp [hyz2] at hbc
        · simp only [hxy, if_false] at hab
          by_cases hxy2 : x = y
          · subst hxy2
            simp only [if_pos rfl] at hab
            by_cases hxz : x < z
            · simp [hxz]
            · simp only [hxz, if_false] at hbc ⊢
              by_cases hxz2 : x = z
              · subst hxz2
                simp only [if_pos rfl] at hbc ⊢
                exact ih ys zs hab hbc
              · simp [hxz2] at hbc
          · simp [hxy2] at hab

theorem lexLe_antisymm : ∀ a b : List Char,
    lexLe a b = true → lexLe b a = true → a = b := by
  intro a
  induction a with
  | nil =>
    intro b _ hba
    cases b with
    | nil => rfl
    | cons y ys => simp [lexLe] at hba
  | cons x xs ih =>
    intro b hab hba
    cases b with
    | nil => simp [lexLe] at hab
    | cons y ys =>
      simp only [lexLe] at hab hba
      by_cases hxy : x < y
      · have : ¬y < x := lt_asymm hxy
        simp [this, (ne_of_lt hxy).symm] at hba
      · simp only [hxy, if_false] at hab
        by_cases hxy2 : x = y
        · subst hxy2
          simp only [if_pos rfl] at hab
          have : ¬x < x := lt_irrefl x
          simp only [this, if_false, if_pos rfl] at hba
          exact congrArg (x :: ·) (ih ys hab hba)
        · simp [hxy2] at hab

theorem strLe_trans {a b c : String} (h1 : strLe a b = true)
    (h2 : strLe b c = true) : strLe a c = true :=
  lexLe_trans a.data b.data c.data h1 h2

instance : IsTotal Entry createdDesc :=
  ⟨fun a b => lexLe_total (sortKey b).data (sortKey a).data⟩

instance : IsTrans Entry createdDesc :=
  ⟨fun _ _ _ hab hbc => lexLe_trans _ _ _ hbc hab⟩

theorem putEntry_of_mem_unique {st : Store} {e : Entry} (hmem : e ∈ st)
    (huniq : ∀ x ∈ st, x.id = e.id → x = e) : putEntry st e = st := by
  unfold putEntry
  have hany : st.any (fun x => x.id == e.id) = true :=
    List.any_eq_true.mpr ⟨e, hmem, by simp⟩
  rw [if_pos hany]
  have hmap : ∀ x ∈ st, (if x.id == e.id then e else x) = id x := by
    intro x hx
    by_cases h : x.id = e.id
    · simp [h, huniq x hx h]
    · simp [h]
  rw [List.map_congr_left hmap, List.map_id]

theorem find?_map_replace (e : Entry) : ∀ st : Store,
    st.any (fun x => x.id == e.id) = true →
    (st.map (fun x => if x.id == e.id then e else x)).find?
      (fun x => x.id == e.id) = some e := by
  intro st
  induction st with
  | nil => intro h; simp at h
  | cons x st ih =>
    intro h
    rw [List.map_cons]
    by_cases hx : (x.id == e.id) = true
    · rw [if_pos hx]
      exact List.find?_cons_of_pos _ (by simp)
    · rw [if_neg hx]
      rw [@List.find?_cons_of_neg _ (fun y => y.id == e.id) x _ hx]
      apply ih
      simpa [hx] using h

theorem find?_append_self (e : Entry) : ∀ st : Store,
    st.any (fun x => x.id == e.id) = false →
    (st ++ [e]).find? (fun x => x.id == e.id) = some e := by
  intro st
  induction st with
  | nil => simp
  | cons x st ih =>
    intro h
    rw [List.any_cons, Bool.or_eq_false_iff] at h
    rw [List.cons_append, List.find?_cons_of_neg _ (by simp [h.1])]
    exact ih h.2

theorem getEntry_putEntry (st : Store) (e : Entry) :
    getEntry (putEntry st e) e.id = some e := by
  unfold putEntry getEntry
  by_cases hany : st.any (fun x => x.id == e.id) = true
  · rw [if_pos hany]
    exact find?_map_replace e st hany
  · rw [if_neg hany]
    exact find?_append_self e st (Bool.not_eq_true _ ▸ hany)

theorem jsToLower_eq_empty {s : String} (h : jsToLower s = "") : s = "" := by
  have hd : s.data.map Char.toLower = ([] : List Char) := congrArg String.data h
  have hnil : s.data = [] := by simpa using hd
  cases s with
  | mk data =>
    have hl : data = [] := hnil
    subst hl
    rfl

theorem searchFilter_of_trim_empty {es : List Entry} {q : String}
    (h : jsTrim q = "") : searchFilter es q = es := by
  unfold searchFilter
  rw [h]
  have hall : ∀ e ∈ es, matchesQuery e (jsToLower "") = (fun _ => true) e := by
    intro e _
    rfl
  rw [List.filter_congr hall, List.filter_true]

theorem searchFilter_of_trim_ne {es : List Entry} {q : String}
    (h : ¬jsTrim q = "") :
    searchFilter es q
      = es.filter
          (fun e => strIncludes (jsToLower (hayOf e)) (jsToLower (jsTrim q))) := by
  unfold searchFilter
  apply List.filter_congr
  intro e _
  unfold matchesQuery
  rw [if_neg (fun hlow => h (jsToLower_eq_empty hlow))]

theorem jsTrim_of_all_whitespace {q : String}
    (h : q.data.all jsWhitespace = true) : jsTrim q = "" := by
  unfold jsTrim trimChars
  have h1 : q.data.dropWhile jsWhitespace = [] :=
    List.dropWhile_eq_nil_iff.mpr (fun x hx => List.all_eq_true.mp h x hx)
  rw [h1]
  rfl


theorem normalizeRecord_entryToJS (fid now : String) (e : Entry)
    (hid : truthy e.id = true) (hca : truthy e.created_at = true) :
    normalizeRecord fid now (entryToJS e) = some e := by
  cases e with
  | mk id ca ua item loc inv dt nts =>
    simp [normalizeRecord, entryToJS, fieldGet, objLookup, isRecord, coerceText, hid, hca]

theorem jsListLength_toJSList : ∀ l : List JSValue,
    jsListLength (toJSList l) = l.length := by
  intro l
  induction l with
  | nil => rfl
  | cons v vs ih => simp [toJSList, jsListLength, ih]

theorem importLoop_roundtrip (fresh : Nat → String) (now : String) (st : Store)
    (huniq : ∀ x ∈ st, ∀ y ∈ st, x.id = y.id → x = y) :
    ∀ (l : List Entry) (k : Nat),
      (∀ e ∈ l, e ∈ st ∧ truthy e.id = true ∧ truthy e.created_at = true) →
      importLoop fresh now k (toJSList (l.map entryToJS)) st = st := by
  intro l
  induction l with
  | nil => intro k _; rfl
  | cons e l ih =>
    intro k h
    obtain ⟨hmem, hid, hca⟩ := h e (List.mem_cons_self e l)
    simp only [List.map_cons, toJSList, importLoop,
      normalizeRecord_entryToJS (fresh k) now e hid hca]
    rw [putEntry_of_mem_unique hmem (fun x hx hxe => huniq x hx e hmem hxe)]
    exact ih (k + 1) (fun x hx => h x (List.mem_cons_of_mem _ hx))

/-- C3: importing the output of export leaves the collection unchanged —
for every stored collection whose entries have truthy `id` and
`created_at` and whose `id` uniquely identifies its entry (the invariants
every collection reachable through the app satisfies), `import(export())`
returns the store exactly as it was, every entry equal by `id` and by
every field value, and reports the full entry count. -/
theorem export_import_roundtrip (fresh : Nat → String) (now expNow : String)
    (st : Store)
    (hwf : ∀ e ∈ st, truthy e.id = true ∧ truthy e.created_at = true)
    (huniq : ∀ x ∈ st, ∀ y ∈ st, x.id = y.id → x = y) :
    importFromValue fresh now (exportPayload expNow st) st = .ok (st, st.length) := by
  have hent : entriesOf (exportPayload expNow st)
      = some (toJSList ((exportList st).map entryToJS)) := rfl
  unfold importFromValue
  rw [hent]
  dsimp only
  have h1 : importLoop fresh now 0 (toJSList ((exportList st).map entryToJS)) st
      = st :=
    importLoop_roundtrip fresh now st huniq (exportList st) 0
      (fun e he =>
        have hmem : e ∈ st := (List.perm_insertionSort createdDesc st).mem_iff.mp he
        ⟨hmem, (hwf e hmem).1, (hwf e hmem).2⟩)
  have h2 : jsListLength (toJSList ((exportList st).map entryToJS)) = st.length := by
    rw [jsListLength_toJSList, List.length_map]
    exact (List.perm_insertionSort createdDesc st).length_eq
  rw [h1, h2]

/-- C1 counterexample: the claim says the count excludes entries silently
skipped for being non-records, but importing `{ "entries": [null] }` into
an empty store processes no record and still returns 1 (`entries.length`,
app.js line 145). -/
theorem import_count_counterexample :
    importFromValue (fun _ => "fresh") "T"
        (.obj (.cons "entries" (.arr (.cons .null .nil)) .nil)) []
      = .ok ([], 1) ∧
    recordCount (.cons .null .nil) = 0 := by
  decide

/-- C1 amended: for every import payload whose `entries` array contains at
least one non-record element, import skips those elements but returns the
full length of the `entries` array, a count that includes the silently
skipped elements and therefore differs from the number of records actually
processed. -/
theorem import_count_includes_skipped (fresh : Nat → String) (now : String)
    (es : JSList) (st : Store) (h : recordCount es < jsListLength es) :
    (∃ st2, importFromValue fresh now (.obj (.cons "entries" (.arr es) .nil)) st
        = .ok (st2, jsListLength es)) ∧
    jsListLength es ≠ recordCount es :=
  ⟨⟨importLoop fresh now 0 es st, rfl⟩, (Nat.ne_of_lt h).symm⟩

/-- Witness for C1: the payload `{ "entries": [null] }` satisfies the
hypothesis and the amended statement. -/
theorem import_count_includes_skipped_witness :
    (∃ st2, importFromValue (fun _ => "fresh") "T"
        (.obj (.cons "entries" (.arr (.cons .null .nil)) .nil)) []
        = .ok (st2, jsListLength (.cons .null .nil))) ∧
    jsListLength (.cons .null .nil) ≠ recordCount (.cons .null .nil) :=
  import_count_includes_skipped (fun _ => "fresh") "T" (.cons .null .nil) []
    (by decide)

/-- C2 counterexample: the claim says every text field becomes empty text
whenever it is absent or not text, but normalizing `{ "item": 3 }` gives
`item = "3"` (JavaScript `String(3)`, app.js line 137), not `""`. -/
theorem import_text_coercion_counterexample :
    (normalizeRecord "fresh" "T" (.obj (.cons "item" (.num 3) .nil))).map
        Entry.item = some "3" ∧
    ¬(normalizeRecord "fresh" "T" (.obj (.cons "item" (.num 3) .nil))).map
        Entry.item = some "" := by
  decide

/-- Helper for the text-field normalization of `importJSON`: whenever a
projection of the normalized record is the `coerceText` of the payload
field at `key`, the three coercion cases of app.js lines 137-141 follow —
a string value is kept, an absent or null value becomes empty text, and
any other value becomes its JavaScript string conversion. -/
theorem coerceText_cases (fid now : String) (key : String)
    (g : Entry → String)
    (hg : ∀ kvs : JSObj, (normalizeRecord fid now (.obj kvs)).map g
        = some (coerceText (objLookup kvs key))) :
    (∀ (kvs : JSObj) (s : String), objLookup kvs key = some (.str s) →
      (normalizeRecord fid now (.obj kvs)).map g = some s) ∧
    (∀ kvs : JSObj,
      objLookup kvs key = none ∨ objLookup kvs key = some .null →
      (normalizeRecord fid now (.obj kvs)).map g = some "") ∧
    (∀ (kvs : JSObj) (v : JSValue), objLookup kvs key = some v →
      ¬v = .null → (∀ s, ¬v = .str s) →
      (normalizeRecord fid now (.obj kvs)).map g = some (jsToString v)) := by
  refine ⟨?_, ?_, ?_⟩
  · intro kvs s h
    rw [hg kvs, h]
    rfl
  · intro kvs h
    rcases h with h | h <;> rw [hg kvs, h] <;> rfl
  · intro kvs v hv hnull hstr
    rw [hg kvs, hv]
    congr 1
    cases v with
    | null => exact absurd rfl hnull
    | str s => exact absurd rfl (hstr s)
    | bool b => rfl
    | num n => rfl
    | arr xs => rfl
    | obj o => rfl

/-- C2 amended: import normalizes every record element before upserting —
a missing `id` becomes the freshly generated value, a missing `created_at`
becomes the current time, a missing `updated_at` becomes null, and each
of the five text fields `item`, `location`, `inventory`, `date`, `notes`
(quantified below as the key/projection pairs) is kept when already text,
becomes empty text when absent or null, and otherwise becomes
JavaScript's string conversion of its value; in particular importing
`{ "entries": [{}] }` produces exactly one record with the fresh `id`,
the current `created_at`, null `updated_at` and all five text fields
`""`. -/
theorem import_normalization (fresh : Nat → String) (now fid : String) :
    (∀ kvs : JSObj, objLookup kvs "id" = none →
      (normalizeRecord fid now (.obj kvs)).map Entry.id = some (.str fid)) ∧
    (∀ kvs : JSObj, objLookup kvs "created_at" = none →
      (normalizeRecord fid now (.obj kvs)).map Entry.created_at
        = some (.str now)) ∧
    (∀ kvs : JSObj, objLookup kvs "updated_at" = none →
      (normalizeRecord fid now (.obj kvs)).map Entry.updated_at
        = some .null) ∧
    (∀ (key : String) (g : Entry → String),
      (key = "item" ∧ g = Entry.item) ∨
        (key = "location" ∧ g = Entry.location) ∨
        (key = "inventory" ∧ g = Entry.inventory) ∨
        (key = "date" ∧ g = Entry.date) ∨
        (key = "notes" ∧ g = Entry.notes) →
      (∀ (kvs : JSObj) (s : String), objLookup kvs key = some (.str s) →
        (normalizeRecord fid now (.obj kvs)).map g = some s) ∧
      (∀ kvs : JSObj,
        objLookup kvs key = none ∨ objLookup kvs key = some .null →
        (normalizeRecord fid now (.obj kvs)).map g = some "") ∧
      (∀ (kvs : JSObj) (v : JSValue), objLookup kvs key = some v →
        ¬v = .null → (∀ s, ¬v = .str s) →
        (normalizeRecord fid now (.obj kvs)).map g
          = some (jsToString v))) ∧
    importFromValue fresh now
        (.obj (.cons "entries" (.arr (.cons (.obj .nil) .nil)) .nil)) []
      = .ok ([{ id := .str (fresh 0), created_at := .str now,
                updated_at := .null, item := "", location := "",
                inventory := "", date := "", notes := "" }], 1) := by
  refine ⟨?_, ?_, ?_, ?_, ?_⟩
  · intro kvs h
    simp [normalizeRecord, fieldGet, isRecord, h]
  · intro kvs h
    simp [normalizeRecord, fieldGet, isRecord, h]
  · intro kvs h
    simp [normalizeRecord, fieldGet, isRecord, h]
  · intro key g hmem
    apply coerceText_cases
    rcases hmem with ⟨rfl, rfl⟩ | ⟨rfl, rfl⟩ | ⟨rfl, rfl⟩ | ⟨rfl, rfl⟩ |
      ⟨rfl, rfl⟩ <;>
      exact fun _ => rfl
  · rfl

/-- Witness for C2: normalizing `{ "location": 7 }` exercises the
string-conversion case on the `location` field, giving `"7"`. -/
theorem import_normalization_witness :
    (normalizeRecord "fresh" "T" (.obj (.cons "location" (.num 7) .nil))).map
        Entry.location = some "7" :=
  ((import_normalization (fun _ => "fresh") "T" "fresh").2.2.2.1 "location"
      Entry.location (Or.inr (Or.inl ⟨rfl, rfl⟩))).2.2
    (.cons "location" (.num 7) .nil) (.num 7) rfl
    (fun h => JSValue.noConfusion h) (fun _ h => JSValue.noConfusion h)

/-- C5: submitting the log form with an `item` that is empty after trimming
(for example `"   "`) fails validation before any storage call — the
handler returns without building an entry, which the pure embedding
renders as an error result, the store being left exactly as it was
(app.js lines 199-204). -/
theorem createEntry_empty_item_rejected (freshId now : String)
    (f : FormFields) (st : Store) (h : jsTrim f.item = "") :
    createEntry freshId now f st = .error .validation := by
  simp [createEntry, h]

/-- Witness for C5: the all-whitespace item `"   "` is rejected. -/
theorem createEntry_empty_item_rejected_witness :
    createEntry "fresh" "T"
        { item := "   ", location := "a", inventory := "b", date := "c",
          notes := "d" } [] = .error .validation :=
  createEntry_empty_item_rejected "fresh" "T"
    { item := "   ", location := "a", inventory := "b", date := "c",
      notes := "d" } [] (by decide)

/-- C8: `delete` is idempotent and never fails — it is a total operation,
deleting an absent key is a no-op, and after deleting a key the collection
contains no record with that key, so deleting it again changes nothing
(app.js lines 88-90). -/
theorem deleteEntry_idempotent (st : Store) (k : JSValue) :
    getEntry (deleteEntry st k) k = none ∧
    deleteEntry (deleteEntry st k) k = deleteEntry st k := by
  constructor
  · unfold getEntry deleteEntry
    rw [List.find?_eq_none]
    intro x hx
    have := (List.mem_filter.mp hx).2
    simp only [Bool.not_eq_true'] at this
    simp [this]
  · unfold deleteEntry
    rw [List.filter_filter]
    apply List.filter_congr
    intro x _
    cases h : (x.id == k) <;> simp

/-- C9: the search haystack joins `item`, `location` and `notes` with
single spaces (an unset optional field contributes its empty-string
value), so a query containing a space can match across adjacent fields:
`"drill garage"` matches the entry with item `Drill` and location
`Garage` even though no single field contains that text
(app.js line 325). -/
theorem search_haystack_cross_field :
    (∀ e : Entry, hayOf e = e.item ++ " " ++ e.location ++ " " ++ e.notes) ∧
    searchFilter [sampleDrill] "drill garage" = [sampleDrill] ∧
    strIncludes (jsToLower sampleDrill.item) (jsToLower "drill garage")
      = false ∧
    strIncludes (jsToLower sampleDrill.location) (jsToLower "drill garage")
      = false ∧
    strIncludes (jsToLower sampleDrill.notes) (jsToLower "drill garage")
      = false :=
  ⟨fun _ => rfl, by decide, by decide, by decide, by decide⟩

/-- C10: a query consisting only of whitespace is trimmed to the empty
string by `renderSearch` (app.js line 345) and therefore behaves exactly
like the empty query: every entry is returned, in the same order as for
the empty query. -/
theorem whitespace_query_matches_all (es : List Entry) (q : String)
    (h : q.data.all jsWhitespace = true) :
    searchFilter es q = es ∧ searchFilter es "" = es :=
  ⟨searchFilter_of_trim_empty (jsTrim_of_all_whitespace h),
   searchFilter_of_trim_empty rfl⟩

/-- Witness for C10: the query `"   "` is all whitespace and returns the
whole entry list. -/
theorem whitespace_query_matches_all_witness :
    searchFilter [sampleDrill] "   " = [sampleDrill] ∧
    searchFilter [sampleDrill] "" = [sampleDrill] :=
  whitespace_query_matches_all [sampleDrill] "   " (by decide)

/-- Witness for C3: a concrete two-entry store round-trips through
export and import unchanged. -/
theorem export_import_roundtrip_witness :
    importFromValue (fun _ => "fresh") "T"
        (exportPayload "E" [sampleDrill, sampleSaw]) [sampleDrill, sampleSaw]
      = .ok ([sampleDrill, sampleSaw], 2) :=
  export_import_roundtrip (fun _ => "fresh") "T" "E" [sampleDrill, sampleSaw]
    (by decide) (by decide)

/-- C4 counterexample: the claim describes matching against the lowercased
query as given, but `renderSearch` trims the query first (app.js
line 345) — the all-whitespace query `"   "` is nonempty, no entry's
haystack contains three consecutive spaces, yet the code returns every
entry rather than the subsequence the claim describes. -/
theorem searchFilter_untrimmed_counterexample :
    ¬("   " = "") ∧
    searchFilter [sampleDrill] "   " = [sampleDrill] ∧
    List.filter
        (fun e => strIncludes (jsToLower (hayOf e)) (jsToLower "   "))
        [sampleDrill] = [] := by
  decide

/-- C4 amended: for every list of entries and every query string, if the
trimmed query is empty the filter returns all entries unchanged in order,
and otherwise it returns exactly the subsequence of entries (preserving
input order) whose lowercased space-joined concatenation of `item`,
`location` and `notes` contains the trimmed lowercased query as a
substring, with `inventory` and `date` excluded — so querying `"3"`
against an entry whose only field containing `3` is `inventory` yields no
match. -/
theorem searchFilter_trimmed_spec (es : List Entry) (q : String) :
    (jsTrim q = "" → searchFilter es q = es) ∧
    (¬jsTrim q = "" →
      searchFilter es q
        = es.filter
            (fun e => strIncludes (jsToLower (hayOf e))
              (jsToLower (jsTrim q)))) ∧
    searchFilter [sampleSaw] "3" = [] :=
  ⟨fun h => searchFilter_of_trim_empty h,
   fun h => searchFilter_of_trim_ne h, by decide⟩

/-- Witness for C4: the query `"drill"` has a nonempty trim and filters by
haystack containment. -/
theorem searchFilter_trimmed_spec_witness :
    searchFilter [sampleDrill] "drill"
      = List.filter
          (fun e => strIncludes (jsToLower (hayOf e))
            (jsToLower (jsTrim "drill")))
          [sampleDrill] :=
  (searchFilter_trimmed_spec [sampleDrill] "drill").2.1 (by decide)

/-- C6: for every existing entry and updates with non-empty trimmed
`item`, the updated record keeps the entry's `id` and `created_at` and
only `updated_at` is refreshed to the current time; two updates in
sequence preserve `id` and `created_at` across both calls, the second
`updated_at` is at least the first, and both are at least the original
`created_at` (the supplied clock values being monotone, as `nowISO()`
is). -/
theorem saveEdit_preserves_id_created_at
    (now1 now2 id : String) (f1 f2 : FormFields) (st : Store)
    (orig : Entry) (ca : String)
    (hget : getEntry st (.str id) = some orig)
    (h1 : ¬jsTrim f1.item = "") (h2 : ¬jsTrim f2.item = "")
    (hca : orig.created_at = .str ca)
    (hc1 : strLe ca now1 = true) (h12 : strLe now1 now2 = true) :
    ∃ st1 st2 r1 r2,
      saveEdit now1 id f1 st = .ok st1 ∧
      getEntry st1 (.str id) = some r1 ∧
      saveEdit now2 id f2 st1 = .ok st2 ∧
      getEntry st2 (.str id) = some r2 ∧
      r1.id = orig.id ∧ r1.created_at = orig.created_at ∧
      r1.updated_at = .str now1 ∧
      r2.id = orig.id ∧ r2.created_at = orig.created_at ∧
      r2.updated_at = .str now2 ∧
      strLe now1 now2 = true ∧ strLe ca now1 = true ∧
      strLe ca now2 = true := by
  have hido : orig.id = .str id := by
    have hp := List.find?_some hget
    simpa using hp
  have hs1 : saveEdit now1 id f1 st
      = .ok (putEntry st
          { orig with
            item := jsTrim f1.item
            location := jsTrim f1.location
            inventory := jsTrim f1.inventory
            date := jsTrim f1.date
            notes := jsTrim f1.notes
            updated_at := .str now1 }) := by
    simp [saveEdit, h1, hget]
  have hg1 : getEntry
      (putEntry st
        { orig with
          item := jsTrim f1.item
          location := jsTrim f1.location
          inventory := jsTrim f1.inventory
          date := jsTrim f1.date
          notes := jsTrim f1.notes
          updated_at := .str now1 })
      (.str id)
      = some
        { orig with
          item := jsTrim f1.item
          location := jsTrim f1.location
          inventory := jsTrim f1.inventory
          date := jsTrim f1.date
          notes := jsTrim f1.notes
          updated_at := .str now1 } := by
    rw [← hido]
    exact getEntry_putEntry st _
  have hs2 : saveEdit now2 id f2
      (putEntry st
        { orig with
          item := jsTrim f1.item
          location := jsTrim f1.location
          inventory := jsTrim f1.inventory
          date := jsTrim f1.date
          notes := jsTrim f1.notes
          updated_at := .str now1 })
      = .ok (putEntry
          (putEntry st
            { orig with
              item := jsTrim f1.item
              location := jsTrim f1.location
              inventory := jsTrim f1.inventory
              date := jsTrim f1.date
              notes := jsTrim f1.notes
              updated_at := .str now1 })
          { orig with
            item := jsTrim f2.item
            location := jsTrim f2.location
            inventory := jsTrim f2.inventory
            date := jsTrim f2.date
            notes := jsTrim f2.notes
            updated_at := .str now2 }) := by
    simp [saveEdit, h2, hg1]
  have hg2 : getEntry
      (putEntry
        (putEntry st
          { orig with
            item := jsTrim f1.item
            location := jsTrim f1.location
            inventory := jsTrim f1.inventory
            date := jsTrim f1.date
            notes := jsTrim f1.notes
            updated_at := .str now1 })
        { orig with
          item := jsTrim f2.item
          location := jsTrim f2.location
          inventory := jsTrim f2.inventory
          date := jsTrim f2.date
          notes := jsTrim f2.notes
          updated_at := .str now2 })
      (.str id)
      = some
        { orig with
          item := jsTrim f2.item
          location := jsTrim f2.location
          inventory := jsTrim f2.inventory
          date := jsTrim f2.date
          notes := jsTrim f2.notes
          updated_at := .str now2 } := by
    rw [← hido]
    exact getEntry_putEntry _ _
  exact ⟨_, _, _, _, hs1, hg1, hs2, hg2, rfl, rfl, rfl, rfl, rfl, rfl,
    h12, hc1, strLe_trans hc1 h12⟩

/-- Witness for C6: updating a concrete entry twice with increasing clock
values. -/
theorem saveEdit_preserves_id_created_at_witness :
    ∃ st1 st2 r1 r2,
      saveEdit "2024-01-02T00:00:00.000Z" "a"
          { item := "Drill", location := "Shed", inventory := "", date := "",
            notes := "" } [sampleDrill] = .ok st1 ∧
      getEntry st1 (.str "a") = some r1 ∧
      saveEdit "2024-01-03T00:00:00.000Z" "a"
          { item := "Drill", location := "Attic", inventory := "", date := "",
            notes := "" } st1 = .ok st2 ∧
      getEntry st2 (.str "a") = some r2 ∧
      r1.id = sampleDrill.id ∧ r1.created_at = sampleDrill.created_at ∧
      r1.updated_at = .str "2024-01-02T00:00:00.000Z" ∧
      r2.id = sampleDrill.id ∧ r2.created_at = sampleDrill.created_at ∧
      r2.updated_at = .str "2024-01-03T00:00:00.000Z" ∧
      strLe "2024-01-02T00:00:00.000Z" "2024-01-03T00:00:00.000Z" = true ∧
      strLe "2024-01-01T10:00:00.000Z" "2024-01-02T00:00:00.000Z" = true ∧
      strLe "2024-01-01T10:00:00.000Z" "2024-01-03T00:00:00.000Z" = true :=
  saveEdit_preserves_id_created_at "2024-01-02T00:00:00.000Z"
    "2024-01-03T00:00:00.000Z" "a"
    { item := "Drill", location := "Shed", inventory := "", date := "",
      notes := "" }
    { item := "Drill", location := "Attic", inventory := "", date := "",
      notes := "" }
    [sampleDrill] sampleDrill "2024-01-01T10:00:00.000Z"
    (by decide) (by decide) (by decide) (by decide) (by decide) (by decide)

/-- C7: export fetches all entries (the output is a permutation of the
store) and lists them sorted descending by `created_at` key; when the
`created_at` keys are pairwise distinct — in particular for three entries
with distinct timestamps — the order is strictly descending (the
code-point comparison on ISO-8601 UTC strings matching chronological
order). -/
theorem export_sorted_descending (st : Store) :
    (exportList st).Perm st ∧
    List.Pairwise createdDesc (exportList st) ∧
    ((st.map sortKey).Nodup →
      List.Pairwise
        (fun a b => strLe (sortKey b) (sortKey a) = true ∧
          ¬sortKey b = sortKey a)
        (exportList st)) := by
  refine ⟨List.perm_insertionSort createdDesc st,
    List.sorted_insertionSort createdDesc st, ?_⟩
  intro hd
  have hperm := List.perm_insertionSort createdDesc st
  have h1 : ((exportList st).map sortKey).Nodup :=
    ((hperm.map sortKey).nodup_iff).mpr hd
  have h2 : List.Pairwise (fun a b : Entry => ¬sortKey a = sortKey b)
      (exportList st) := List.pairwise_map.mp h1
  exact ((List.sorted_insertionSort createdDesc st).and h2).imp
    (fun h => ⟨h.1, fun he => h.2 he.symm⟩)

/-- Witness for C7: three concrete entries with pairwise distinct
`created_at` values export in strictly descending order. -/
theorem export_sorted_descending_witness :
    List.Pairwise
      (fun a b => strLe (sortKey b) (sortKey a) = true ∧
        ¬sortKey b = sortKey a)
      (exportList [sampleDrill, sampleHammer, sampleSaw]) :=
  (export_sorted_descending [sampleDrill, sampleHammer, sampleSaw]).2.2
    (by decide)

end LogItYeetIt
